import Mathlib

/-!
Verification of the caption-flow pipeline orchestrator.

This file gives a shallow embedding of the orchestration core of the
caption-flow repository and proves (or refutes) the specification claims
about it.  Components embedded here:

* Go `path/filepath` / `strings` helpers used by the code (`filepath.Ext`,
  `filepath.Base`, `filepath.Join`, `strings.ToLower`, `strings.TrimSuffix`),
  restricted to the `/`-separated paths the program manipulates.
* the watcher's extension filter `isVideoFile` (internal/watcher).
* the per-item stage pipeline `implProcessor.Process` together with its
  helpers (`moveToProcessing`, `extractAudio`, `transcribe`, `convertToASS`,
  `burnSubtitle`, `moveToOutput`, `cleanup`, `cleanupTempFile`), modelled as
  a pure function over an explicit filesystem state (a set of file paths,
  represented as a duplicate-free-by-construction list) together with an
  environment oracle prescribing the outcome of each external-process
  invocation.  File operations (`os.Rename`, `os.Remove`) succeed exactly
  when their source file exists; environmental failures that the code
  explicitly handles (`os.MkdirTemp`, the cross-filesystem failure of the
  final `os.Rename`, the fallback copy's write) are modelled by oracles.
* the counting-semaphore admission gate (buffered channel of capacity N)
  and the dispatcher pattern shared by `implWatcher.Start` and
  `runTargetMode`, as small-step transition systems.
* the batch mode `runTargetMode` aggregate counting.
-/

/-! ## Go string and path helpers -/

/-- `filepath.Ext`: the suffix beginning at the final dot in the final
slash-separated element of the path; empty if there is no dot.  Implemented
by scanning the reversed character list. -/
def goExtRev : List Char → List Char → String
  | [], _ => ""
  | c :: rest, acc =>
    if c = '/' then ""
    else if c = '.' then String.mk ('.' :: acc)
    else goExtRev rest (c :: acc)

def goExt (s : String) : String := goExtRev s.data.reverse []

/-- `filepath.Base`: the last element of the path, after stripping trailing
slashes; `"."` for the empty path, `"/"` if the path is all slashes. -/
def goBase (s : String) : String :=
  if s.data = [] then "."
  else
    let r := s.data.reverse.dropWhile (fun c => c = '/')
    if r = [] then "/"
    else String.mk ((r.takeWhile (fun c => c ≠ '/')).reverse)

/-- `filepath.Join dir name` for a nonempty cleaned `dir` and a relative
`name`, as used throughout the code: `dir ++ "/" ++ name`. -/
def goJoin (dir name : String) : String := dir ++ "/" ++ name

/-- ASCII lowering of one character (`strings.ToLower` restricted to the
ASCII file extensions the code compares). -/
def asciiLower (c : Char) : Char :=
  if 'A' ≤ c ∧ c ≤ 'Z' then Char.ofNat (c.toNat + 32) else c

def goToLower (s : String) : String := String.mk (s.data.map asciiLower)

/-- `strings.TrimSuffix`: drop `suf` from the end of `s` when present. -/
def goTrimSuffix (s suf : String) : String :=
  if suf.data.isSuffixOf s.data then
    String.mk (s.data.take (s.data.length - suf.data.length))
  else s

/-! ## Watcher extension filter (internal/watcher, `isVideoFile`) -/

def supportedFormats : List String :=
  [".mp4", ".mov", ".avi", ".mkv", ".webm", ".m4v", ".flv"]

/-- `implWatcher.isVideoFile`: lowercase the extension and compare against
the supported format list. -/
def isVideoFile (path : String) : Bool :=
  supportedFormats.contains (goToLower (goExt path))

/-- The watcher's dispatch decision for one fsnotify event: only CREATE
events whose name passes `isVideoFile` are handed to the handler
(`implWatcher.Start`, the `event.Op&fsnotify.Create` branch). -/
def watcherDispatches (isCreate : Bool) (name : String) : Bool :=
  isCreate && isVideoFile name

/-! ## Filesystem state -/

/-- The filesystem, as the set of existing regular files (directories are
not tracked: the code only ever creates them with `MkdirAll`). -/
abbrev FS := List String

def fsAdd (p : String) (fs : FS) : FS := if p ∈ fs then fs else p :: fs

def fsRemove (p : String) (fs : FS) : FS := fs.filter (fun q => q ≠ p)

/-- Is `p` a file strictly inside directory `d`? -/
def underDirB (d p : String) : Bool := List.isPrefixOf (d ++ "/").data p.data

/-- `os.RemoveAll d`: delete every file inside directory `d`. -/
def removeUnder (d : String) (fs : FS) : FS :=
  fs.filter (fun q => !(underDirB d q))

/-- `os.Rename src dst`: fails iff `src` does not exist. -/
def osRename (src dst : String) (fs : FS) : Option FS :=
  if src ∈ fs then some (fsAdd dst (fsRemove src fs)) else none

/-- `os.Remove p`: fails iff `p` does not exist. -/
def osRemove (p : String) (fs : FS) : Option FS :=
  if p ∈ fs then some (fsRemove p fs) else none

/-! ## Configuration (internal/config) -/

/-- The directory paths from `PathsConfig`.  The repository snapshot holds
two revisions of this struct (`input/processing/output` and
`input/output/archived/temp`); the union of the fields the pipeline code
reads is carried here. -/
structure Paths where
  input : String
  processing : String
  output : String
  archived : String
  temp : String

/-- `FFmpegConfig` fields consumed by `burnSubtitle`/`burnSubtitleSoftware`. -/
structure FFmpegCfg where
  encoder : String
  videoBitrate : String
  audioCodec : String
  preset : String

/-! ## Environment oracle for one `Process` run

Each external-process invocation (`ffmpeg`, `whisper`) either succeeds or
fails with a message; failures of `os.MkdirTemp`, of the final `os.Rename`
into the output directory (e.g. across filesystem boundaries) and of the
fallback copy's write are environmental and modelled by oracles.  All
other file operations succeed exactly when their source file exists. -/
structure ProcEnv where
  extractRes : Except String Unit
  transcribeRes : Except String Unit
  convertRes : Except String Unit
  innerConvertOk : Bool
  mkdirTempRes : Except String Unit
  tempDirName : String
  hwRes : Except String Unit
  swRes : Except String Unit
  renameOutOk : Bool
  copyOutOk : Bool

/-! ## Derived artifact paths

These mirror the path computations of the stage helpers:
`moveToProcessing` joins the processing dir with the base name;
`extractAudio` appends `_temp.wav` to the ext-stripped processing path;
`transcribe` appends `.srt` to the ext-stripped audio path;
`convertToASS` appends `.ass` to the ext-stripped SRT path;
`burnSubtitle` writes `Output/videos/<base>`; `moveToOutput` renames the
SRT into the output root under its own base name. -/

def ppOf (cfg : Paths) (v : String) : String := goJoin cfg.processing (goBase v)

def audioOf (cfg : Paths) (v : String) : String :=
  goTrimSuffix (ppOf cfg v) (goExt (ppOf cfg v)) ++ "_temp.wav"

def srtOf (cfg : Paths) (v : String) : String :=
  goTrimSuffix (audioOf cfg v) (goExt (audioOf cfg v)) ++ ".srt"

def assOf (cfg : Paths) (v : String) : String :=
  goTrimSuffix (srtOf cfg v) (goExt (srtOf cfg v)) ++ ".ass"

def tempDirOf (cfg : Paths) (env : ProcEnv) : String := goJoin cfg.temp env.tempDirName

def tempSubOf (cfg : Paths) (env : ProcEnv) : String :=
  goJoin (tempDirOf cfg env) "subtitle.ass"

def tempOutOf (cfg : Paths) (env : ProcEnv) : String :=
  goJoin (tempDirOf cfg env) "output.mp4"

def videosDirOf (cfg : Paths) : String := goJoin cfg.output "videos"

def outVideoOf (cfg : Paths) (v : String) : String :=
  goJoin (videosDirOf cfg) (goBase (ppOf cfg v))

def outSrtOf (cfg : Paths) (v : String) : String :=
  goJoin cfg.output (goBase (srtOf cfg v))

/-- `burnSubtitle`'s internal ASS path: `srtPath[:len(srtPath)-4] + ".ass"`
(a byte slice; all paths involved are ASCII so characters equal bytes). -/
def assInnerOf (sp : String) : String :=
  String.mk (sp.data.take (sp.data.length - 4)) ++ ".ass"

/-! ## `burnSubtitle` (unnamed part_005) over the filesystem model

`burnSubtitle` converts the given subtitle to ASS (falling back to the
input on conversion failure, non-fatally), creates an isolated temp dir,
copies the subtitle there, encodes with the configured hardware encoder,
retries with `libx264` on failure, and finally relocates the temp output
into `Output/videos/<base>` by rename, falling back to a copy.  `defer`s
remove (LIFO) the temp dir and then the ASS file on every exit path after
their registration points. -/
/-- The tail of `burnSubtitle`: `os.Rename(tempOutput, outputPath)` into the
final output directory, falling back to `copyFile` when the rename fails;
`exit2` applies the two pending `defer`s. -/
def burnRelocate (env : ProcEnv) (outputPath tempOutput : String)
    (exit2 : Except String String → FS → Except String String × FS) (fs : FS) :
    Except String String × FS :=
  if env.renameOutOk then exit2 (.ok outputPath) (fsAdd outputPath (fsRemove tempOutput fs))
  else if env.copyOutOk then exit2 (.ok outputPath) (fsAdd outputPath fs)
  else exit2 (.error "move output to final location: write destination: write failed") fs

def burnSubtitleFS (cfg : Paths) (env : ProcEnv) (videoPath srtParam : String)
    (fs : FS) : Except String String × FS :=
  let outputPath := goJoin (videosDirOf cfg) (goBase videoPath)
  let assPath0 := assInnerOf srtParam
  -- ffmpeg -i srtParam -y assPath0 ; on failure the SRT itself is used
  let acc := if env.innerConvertOk then (assPath0, fsAdd assPath0 fs) else (srtParam, fs)
  let assPath := acc.1
  let fs1 := acc.2
  -- defer os.Remove(assPath) is registered here
  match env.mkdirTempRes with
  | .error m => (.error ("create temp dir: " ++ m), fsRemove assPath fs1)
  | .ok _ =>
    let tempDir := tempDirOf cfg env
    -- defer os.RemoveAll(tempDir) is registered here; defers run LIFO
    let exit2 := fun (r : Except String String) (fs : FS) =>
      (r, fsRemove assPath (removeUnder tempDir fs))
    let tempSubtitle := goJoin tempDir "subtitle.ass"
    let tempOutput := goJoin tempDir "output.mp4"
    if assPath ∈ fs1 then
      -- copyFile(assPath, tempSubtitle)
      let fs2 := fsAdd tempSubtitle fs1
      -- hardware encoder, then the software fallback
      match env.hwRes with
      | .ok _ => burnRelocate env outputPath tempOutput exit2 (fsAdd tempOutput fs2)
      | .error _ =>
        match env.swRes with
        | .ok _ => burnRelocate env outputPath tempOutput exit2 (fsAdd tempOutput fs2)
        | .error m =>
          exit2 (.error ("both hardware and software encoders failed: software encoder failed: " ++ m)) fs2
    else
      exit2 (.error "copy subtitle to temp: read source: no such file") fs1

/-! ## `implProcessor.Process` (internal/processor/processor.go)

The orchestrator: move to processing, extract audio, transcribe, convert
to ASS, burn subtitle — each aborting with a stage-named wrapped error —
then the non-fatal move of the SRT to the output root and the removal of
the processing copy.  `defer p.cleanupTempFile` is registered for the
audio path after stage 2 succeeds and for the ASS path after stage 4
succeeds; defers run LIFO on every exit path and ignore removal errors.
The trace records each helper invoked together with whether it succeeded. -/

inductive Stage
  | moveToProcessing | extractAudio | transcribe | convertToASS
  | burnSubtitle | moveToOutput | cleanup
deriving DecidableEq, Repr, Fintype

def stageLabel : Stage → String
  | .moveToProcessing => "move to processing"
  | .extractAudio => "extract audio"
  | .transcribe => "transcribe"
  | .convertToASS => "convert to ASS"
  | .burnSubtitle => "burn subtitle"
  | .moveToOutput => "move SRT to output"
  | .cleanup => "cleanup"

/-- The five stages whose failure aborts the item. -/
def fatalStages : List Stage :=
  [.moveToProcessing, .extractAudio, .transcribe, .convertToASS, .burnSubtitle]

/-- Full helper invocation order of a completely successful run. -/
def stageOrder : List Stage :=
  [.moveToProcessing, .extractAudio, .transcribe, .convertToASS,
   .burnSubtitle, .moveToOutput, .cleanup]

structure ProcResult where
  res : Except String Unit
  fs : FS
  trace : List (Stage × Bool)

def fsStep1 (cfg : Paths) (v : String) (fs : FS) : FS :=
  fsAdd (ppOf cfg v) (fsRemove v fs)

def fsStep2 (cfg : Paths) (v : String) (fs : FS) : FS :=
  fsAdd (audioOf cfg v) (fsStep1 cfg v fs)

def fsStep3 (cfg : Paths) (v : String) (fs : FS) : FS :=
  fsAdd (srtOf cfg v) (fsStep2 cfg v fs)

def fsStep4 (cfg : Paths) (v : String) (fs : FS) : FS :=
  fsAdd (assOf cfg v) (fsStep3 cfg v fs)

/-- Step 6: `moveToOutput` — rename the SRT into the output root; a
failure is logged and does not fail the item. -/
def step6 (cfg : Paths) (v : String) (fs : FS) : Bool × FS :=
  match osRename (srtOf cfg v) (outSrtOf cfg v) fs with
  | some fs6 => (true, fs6)
  | none => (false, fs)

/-- Step 7: `cleanup` — remove the processing copy; a failure is logged
and does not fail the item. -/
def step7 (cfg : Paths) (v : String) (fs : FS) : Bool × FS :=
  match osRemove (ppOf cfg v) fs with
  | some fs7 => (true, fs7)
  | none => (false, fs)

def ProcessFS (cfg : Paths) (env : ProcEnv) (v : String) (fs : FS) : ProcResult :=
  -- Step 1: moveToProcessing (os.Rename; both the helper and Process wrap)
  if v ∈ fs then
    -- Step 2: extractAudio
    match env.extractRes with
    | .error m =>
      ⟨.error ("extract audio: ffmpeg extract audio: " ++ m), fsStep1 cfg v fs,
        [(.moveToProcessing, true), (.extractAudio, false)]⟩
    | .ok _ =>
      -- defer cleanupTempFile(audioPath)
      match env.transcribeRes with
      | .error m =>
        ⟨.error ("transcribe: whisper transcribe: " ++ m),
          fsRemove (audioOf cfg v) (fsStep2 cfg v fs),
          [(.moveToProcessing, true), (.extractAudio, true), (.transcribe, false)]⟩
      | .ok _ =>
        -- Step 4: convertToASS
        match env.convertRes with
        | .error m =>
          ⟨.error ("convert to ASS: ffmpeg convert to ASS: " ++ m),
            fsRemove (audioOf cfg v) (fsStep3 cfg v fs),
            [(.moveToProcessing, true), (.extractAudio, true), (.transcribe, true),
             (.convertToASS, false)]⟩
        | .ok _ =>
          -- defer cleanupTempFile(assPath); defers run LIFO
          -- Step 5: burnSubtitle
          match burnSubtitleFS cfg env (ppOf cfg v) (assOf cfg v) (fsStep4 cfg v fs) with
          | (.error m, bfs) =>
            ⟨.error ("burn subtitle: " ++ m),
              fsRemove (audioOf cfg v) (fsRemove (assOf cfg v) bfs),
              [(.moveToProcessing, true), (.extractAudio, true), (.transcribe, true),
               (.convertToASS, true), (.burnSubtitle, false)]⟩
          | (.ok _, bfs) =>
            let s6 := step6 cfg v bfs
            let s7 := step7 cfg v s6.2
            ⟨.ok (), fsRemove (audioOf cfg v) (fsRemove (assOf cfg v) s7.2),
              [(.moveToProcessing, true), (.extractAudio, true), (.transcribe, true),
               (.convertToASS, true), (.burnSubtitle, true),
               (.moveToOutput, s6.1), (.cleanup, s7.1)]⟩
  else
    ⟨.error "move to processing: move to processing: rename: no such file", fs,
      [(.moveToProcessing, false)]⟩

/-- `implProcessor.moveToArchived` (unnamed part_003): relocate the original
into the archive directory.  Present in the repository but never invoked
by `Process` or any other caller. -/
def moveToArchivedFS (cfg : Paths) (videoPath : String) (fs : FS) : Except String FS :=
  match osRename videoPath (goJoin cfg.archived (goBase videoPath)) fs with
  | some fs1 => .ok fs1
  | none => .error "move to archived: rename: no such file"

/-! ## The counting semaphore (unnamed part_001)

`semaphore` wraps a buffered channel of capacity `cap`.  `acquire` is a
send: it completes exactly when the channel holds fewer than `cap` tokens
(otherwise it blocks, or aborts with the context's error).  `release` is a
receive: it completes exactly when the channel is nonempty (a receive on
an empty buffered channel blocks).  The state is the channel's length. -/

inductive SemStep (cap : Nat) : Nat → Nat → Prop
  | acquire {n : Nat} : n < cap → SemStep cap n (n + 1)
  | release {n : Nat} : 0 < n → SemStep cap n (n - 1)

inductive SemReach (cap : Nat) : Nat → Prop
  | init : SemReach cap 0
  | step {n m : Nat} : SemReach cap n → SemStep cap n m → SemReach cap m

/-! ## The dispatcher pattern (`implWatcher.Start` and `runTargetMode`)

Both dispatch sites share the same shape: send on the semaphore channel
(blocking while `slots = cap`), then start a goroutine whose handler runs
and whose `defer` receives from the channel exactly once when the handler
returns.  A work item is therefore `waiting` (not yet admitted),
`acquired` (slot held, handler not yet entered), `running` (handler
executing) or `done` (handler returned, slot released). -/

structure DState where
  slots : Nat
  waiting : Nat
  acquired : Nat
  running : Nat
  done : Nat
deriving DecidableEq, Repr

def DState.init (w : Nat) : DState := ⟨0, w, 0, 0, 0⟩

inductive DStep (cap : Nat) : DState → DState → Prop
  | acquire (s : DState) : s.slots < cap → 0 < s.waiting →
      DStep cap s ⟨s.slots + 1, s.waiting - 1, s.acquired + 1, s.running, s.done⟩
  | start (s : DState) : 0 < s.acquired →
      DStep cap s ⟨s.slots, s.waiting, s.acquired - 1, s.running + 1, s.done⟩
  | finish (s : DState) : 0 < s.running →
      DStep cap s ⟨s.slots - 1, s.waiting, s.acquired, s.running - 1, s.done + 1⟩

inductive DReach (cap : Nat) (init : DState) : DState → Prop
  | refl : DReach cap init init
  | step {s t : DState} : DReach cap init s → DStep cap s t → DReach cap init t

/-! ## The watcher event loop (`implWatcher.Start`, unnamed part_002)

A small-step model of the `for { select { ... } }` loop.  `select` is the
top-level three-way select; `acquiring` is the inner select attempting the
semaphore send for a detected video file; `draining` is the `wg.Wait()`
after the top-level `ctx.Done()` branch; `returned` means `Start` has
returned.  `inflight` counts dispatched handler goroutines that have not
finished; `slots` is the semaphore channel length; `cancelled` records
whether the context has been cancelled. -/

inductive WPhase
  | select | acquiring | draining | returned
deriving DecidableEq, Repr

structure WState where
  phase : WPhase
  slots : Nat
  inflight : Nat
  cancelled : Bool
deriving DecidableEq, Repr

def WState.init : WState := ⟨.select, 0, 0, false⟩

inductive WStep (cap : Nat) : WState → WState → Prop
  /-- The external context is cancelled. -/
  | cancel (s : WState) : WStep cap s ⟨s.phase, s.slots, s.inflight, true⟩
  /-- Top-level select takes the `ctx.Done()` branch and calls `wg.Wait()`. -/
  | seeCancel (s : WState) : s.phase = .select → s.cancelled = true →
      WStep cap s ⟨.draining, s.slots, s.inflight, s.cancelled⟩
  /-- `wg.Wait()` returns once no handler is in flight; `Start` returns. -/
  | drained (s : WState) : s.phase = .draining → s.inflight = 0 →
      WStep cap s ⟨.returned, s.slots, s.inflight, s.cancelled⟩
  /-- A CREATE event for a video file arrives; after the settle delay the
  loop enters the inner select on the semaphore send. -/
  | videoEvent (s : WState) : s.phase = .select →
      WStep cap s ⟨.acquiring, s.slots, s.inflight, s.cancelled⟩
  /-- The semaphore send succeeds; a handler goroutine is dispatched. -/
  | dispatch (s : WState) : s.phase = .acquiring → s.slots < cap →
      WStep cap s ⟨.select, s.slots + 1, s.inflight + 1, s.cancelled⟩
  /-- The inner select takes its `ctx.Done()` branch: `Start` returns
  `ctx.Err()` immediately, without executing `wg.Wait()`. -/
  | acquireCancelled (s : WState) : s.phase = .acquiring → s.cancelled = true →
      WStep cap s ⟨.returned, s.slots, s.inflight, s.cancelled⟩
  /-- A dispatched handler returns; its `defer` releases the slot. -/
  | handlerDone (s : WState) : 0 < s.inflight →
      WStep cap s ⟨s.phase, s.slots - 1, s.inflight - 1, s.cancelled⟩

inductive WReach (cap : Nat) : WState → Prop
  | init : WReach cap WState.init
  | step {s t : WState} : WReach cap s → WStep cap s t → WReach cap t

/-! ## Batch target mode (`runTargetMode`, cmd/pipeline/main.go)

The target string is split on commas and trimmed; empty entries are
dropped; each entry is joined onto the input directory and kept only if
`os.Stat` finds it (missing files are logged and skipped).  If nothing
remains the function returns with no processing.  Otherwise each valid
path runs `Process` under the semaphore, and atomic counters accumulate
one success or one failure per processed path; the final counts are
their values after `wg.Wait()` (the counter increments commute, so the
totals are interleaving-independent). -/

/-- `strings.Split(target, ",")`, by structural recursion over characters. -/
def splitCommaAux : List Char → List Char → List String
  | [], acc => [String.mk acc.reverse]
  | c :: rest, acc =>
    if c = ',' then String.mk acc.reverse :: splitCommaAux rest []
    else splitCommaAux rest (c :: acc)

def goSplitComma (s : String) : List String := splitCommaAux s.data []

def isSpaceChar (c : Char) : Bool := c = ' ' || c = '\t' || c = '\n' || c = '\r'

/-- `strings.TrimSpace`: drop leading and trailing whitespace. -/
def goTrimSpace (s : String) : String :=
  String.mk (((s.data.dropWhile isSpaceChar).reverse.dropWhile isSpaceChar).reverse)

def parseTargets (target : String) : List String :=
  ((goSplitComma target).map goTrimSpace).filter (fun t => t ≠ "")

def validPathsOf (inputDir : String) (fsExists : String → Bool) (target : String) :
    List String :=
  (parseTargets target).filterMap (fun t =>
    let videoPath := goJoin inputDir t
    if fsExists videoPath then some videoPath else none)

def runTargetModeCounts (inputDir : String) (fsExists : String → Bool)
    (procOk : String → Bool) (target : String) : Nat × Nat :=
  let validPaths := validPathsOf inputDir fsExists target
  if validPaths = [] then (0, 0)
  else (validPaths.countP (fun p => procOk p),
        validPaths.countP (fun p => !(procOk p)))

/-! ## The encoder fallback inside `burnSubtitle` (unnamed part_005)

The exact ffmpeg invocations of the hardware attempt and of
`burnSubtitleSoftware`, and the control flow between them: the hardware
invocation always runs; on its failure the software invocation runs once;
the stage fails only if that also fails. -/

def hwArgs (ff : FFmpegCfg) (absVideoPath subFilename absTempOutput : String) :
    List String :=
  ["-y", "-i", absVideoPath, "-vf", "subtitles=" ++ subFilename,
   "-c:v", ff.encoder, "-b:v", ff.videoBitrate, "-c:a", ff.audioCodec,
   absTempOutput]

def swArgs (ff : FFmpegCfg) (videoPath subFilename outputPath : String) :
    List String :=
  ["-y", "-i", videoPath, "-vf", "subtitles=" ++ subFilename,
   "-c:v", "libx264", "-preset", ff.preset, "-crf", "23", "-c:a", "copy",
   outputPath]

def burnEncode (ff : FFmpegCfg) (env : ProcEnv)
    (absVideoPath subFilename absTempOutput : String) :
    List (List String) × Except String Unit :=
  match env.hwRes with
  | .ok _ => ([hwArgs ff absVideoPath subFilename absTempOutput], .ok ())
  | .error _ =>
    match env.swRes with
    | .ok _ =>
      ([hwArgs ff absVideoPath subFilename absTempOutput,
        swArgs ff absVideoPath subFilename absTempOutput], .ok ())
    | .error m =>
      ([hwArgs ff absVideoPath subFilename absTempOutput,
        swArgs ff absVideoPath subFilename absTempOutput],
       .error ("both hardware and software encoders failed: software encoder failed: " ++ m))

/-- The ordering of consecutive fatal stages (each pair is a stage and its
immediate successor). -/
def consecFatal : List (Stage × Stage) :=
  [(.moveToProcessing, .extractAudio), (.extractAudio, .transcribe),
   (.transcribe, .convertToASS), (.convertToASS, .burnSubtitle)]

/-! ## Concrete witness configuration -/

def cfgW : Paths := ⟨"in", "proc", "out", "arch", "tmp"⟩

def envAllOk : ProcEnv :=
  ⟨.ok (), .ok (), .ok (), true, .ok (), "burn-1", .ok (), .ok (), true, true⟩

def envBurnFail : ProcEnv :=
  { envAllOk with hwRes := .error "hw", swRes := .error "sw" }

/-! ## Path separation hypotheses

The string-valued artifact paths of one item are pairwise distinct and lie
outside each other's directories for every realistic configuration
(distinct configured directories, extension-bearing file names, and a
fresh `MkdirTemp` directory).  The claims below that quantify over all
inputs take these decidable separation facts as hypotheses; each witness
discharges them on a concrete configuration by evaluation. -/

structure SepHyps (cfg : Paths) (env : ProcEnv) (v : String) : Prop where
  pp_ne_audio : ppOf cfg v ≠ audioOf cfg v
  pp_ne_srt : ppOf cfg v ≠ srtOf cfg v
  pp_ne_ass : ppOf cfg v ≠ assOf cfg v
  pp_ne_tempOut : ppOf cfg v ≠ tempOutOf cfg env
  pp_not_temp : underDirB (tempDirOf cfg env) (ppOf cfg v) = false
  srt_ne_audio : srtOf cfg v ≠ audioOf cfg v
  srt_ne_ass : srtOf cfg v ≠ assOf cfg v
  srt_ne_tempOut : srtOf cfg v ≠ tempOutOf cfg env
  srt_not_temp : underDirB (tempDirOf cfg env) (srtOf cfg v) = false
  outV_ne_pp : outVideoOf cfg v ≠ ppOf cfg v
  outV_ne_audio : outVideoOf cfg v ≠ audioOf cfg v
  outV_ne_srt : outVideoOf cfg v ≠ srtOf cfg v
  outV_ne_ass : outVideoOf cfg v ≠ assOf cfg v
  outV_not_temp : underDirB (tempDirOf cfg env) (outVideoOf cfg v) = false
  outS_ne_pp : outSrtOf cfg v ≠ ppOf cfg v
  outS_ne_audio : outSrtOf cfg v ≠ audioOf cfg v
  outS_ne_ass : outSrtOf cfg v ≠ assOf cfg v
  v_ne_pp : v ≠ ppOf cfg v
  v_ne_audio : v ≠ audioOf cfg v
  v_ne_srt : v ≠ srtOf cfg v
  v_ne_ass : v ≠ assOf cfg v
  v_ne_tempSub : v ≠ tempSubOf cfg env
  v_ne_tempOut : v ≠ tempOutOf cfg env
  v_ne_outV : v ≠ outVideoOf cfg v
  v_ne_outS : v ≠ outSrtOf cfg v
  out_pp : underDirB cfg.output (ppOf cfg v) = false
  out_audio : underDirB cfg.output (audioOf cfg v) = false
  out_srt : underDirB cfg.output (srtOf cfg v) = false
  out_ass : underDirB cfg.output (assOf cfg v) = false
  out_tempSub : underDirB cfg.output (tempSubOf cfg env) = false
  out_tempOut : underDirB cfg.output (tempOutOf cfg env) = false
  vid_pp : underDirB (videosDirOf cfg) (ppOf cfg v) = false
  vid_audio : underDirB (videosDirOf cfg) (audioOf cfg v) = false
  vid_srt : underDirB (videosDirOf cfg) (srtOf cfg v) = false
  vid_ass : underDirB (videosDirOf cfg) (assOf cfg v) = false
  vid_tempSub : underDirB (videosDirOf cfg) (tempSubOf cfg env) = false
  vid_tempOut : underDirB (videosDirOf cfg) (tempOutOf cfg env) = false
  vid_outS : underDirB (videosDirOf cfg) (outSrtOf cfg v) = false
  arch_pp : underDirB cfg.archived (ppOf cfg v) = false
  arch_audio : underDirB cfg.archived (audioOf cfg v) = false
  arch_srt : underDirB cfg.archived (srtOf cfg v) = false
  arch_ass : underDirB cfg.archived (assOf cfg v) = false
  arch_tempSub : underDirB cfg.archived (tempSubOf cfg env) = false
  arch_tempOut : underDirB cfg.archived (tempOutOf cfg env) = false
  arch_outV : underDirB cfg.archived (outVideoOf cfg v) = false
  arch_outS : underDirB cfg.archived (outSrtOf cfg v) = false

/-! # Helper lemmas -/

theorem mem_fsAdd {p q : String} {fs : FS} : p ∈ fsAdd q fs ↔ p = q ∨ p ∈ fs := by
  unfold fsAdd
  split
  · constructor
    · exact Or.inr
    · rintro (rfl | h) <;> assumption
  · simp [List.mem_cons]

theorem mem_fsRemove {p q : String} {fs : FS} :
    p ∈ fsRemove q fs ↔ p ∈ fs ∧ p ≠ q := by
  unfold fsRemove
  simp [List.mem_filter]

theorem mem_removeUnder {p d : String} {fs : FS} :
    p ∈ removeUnder d fs ↔ p ∈ fs ∧ underDirB d p = false := by
  unfold removeUnder
  simp [List.mem_filter]

theorem assInnerOf_append_ass (s : String) : assInnerOf (s ++ ".ass") = s ++ ".ass" := by
  unfold assInnerOf
  have hdata : (s ++ ".ass").data = s.data ++ [ '.', 'a', 's', 's' ] := rfl
  rw [hdata]
  have hlen : (s.data ++ [ '.', 'a', 's', 's' ]).length - 4 = s.data.length := by
    simp
  rw [hlen, List.take_left]

theorem assInnerOf_assOf (cfg : Paths) (v : String) :
    assInnerOf (assOf cfg v) = assOf cfg v :=
  assInnerOf_append_ass _

theorem semReach_le {cap n : Nat} (h : SemReach cap n) : n ≤ cap := by
  induction h with
  | init => exact Nat.zero_le _
  | step _ hs ih =>
    cases hs with
    | acquire hlt => omega
    | release hpos => omega

theorem dReach_invariant {cap w : Nat} {s : DState}
    (h : DReach cap (DState.init w) s) :
    s.running + s.acquired ≤ s.slots ∧ s.slots ≤ cap := by
  induction h with
  | refl => simp [DState.init]
  | step _ hs ih =>
    rcases ih with ⟨h1, h2⟩
    cases hs with
    | acquire hlt hw => simp only; omega
    | start ha => simp only; omega
    | finish hr => simp only; omega

theorem mem_burn_preserve (cfg : Paths) (env : ProcEnv) (vp sp p : String) (fs : FS)
    (hp : p ∈ fs) (h1 : p ≠ assInnerOf sp) (h2 : p ≠ sp)
    (h3 : p ≠ tempOutOf cfg env)
    (h4 : underDirB (tempDirOf cfg env) p = false) :
    p ∈ (burnSubtitleFS cfg env vp sp fs).2 := by
  unfold burnSubtitleFS burnRelocate
  simp only [tempOutOf, tempSubOf] at h3 ⊢
  cases hmk : env.mkdirTempRes <;>
  cases hhw : env.hwRes <;>
  cases hsw : env.swRes <;>
  by_cases hic : env.innerConvertOk <;>
  by_cases hro : env.renameOutOk <;>
  by_cases hco : env.copyOutOk <;>
    (try split_ifs) <;> simp_all [mem_fsAdd, mem_fsRemove, mem_removeUnder]

theorem mem_burn_cases (cfg : Paths) (env : ProcEnv) (vp sp p : String) (fs : FS)
    (h : p ∈ (burnSubtitleFS cfg env vp sp fs).2) :
    p ∈ fs ∨ p = assInnerOf sp ∨ p = tempSubOf cfg env ∨ p = tempOutOf cfg env ∨
      p = goJoin (videosDirOf cfg) (goBase vp) := by
  unfold burnSubtitleFS burnRelocate at h
  simp only [tempSubOf, tempOutOf]
  cases hmk : env.mkdirTempRes <;>
  cases hhw : env.hwRes <;>
  cases hsw : env.swRes <;>
  by_cases hic : env.innerConvertOk <;>
  by_cases hro : env.renameOutOk <;>
  by_cases hco : env.copyOutOk <;>
    (try simp_all [mem_fsAdd, mem_fsRemove, mem_removeUnder]) <;>
    (try split_ifs at h) <;>
    (try simp_all [mem_fsAdd, mem_fsRemove, mem_removeUnder]) <;>
    tauto

theorem mem_burn_error (cfg : Paths) (env : ProcEnv) (vp sp p : String) (fs : FS)
    (m : String) (hres : (burnSubtitleFS cfg env vp sp fs).1 = .error m)
    (h : p ∈ (burnSubtitleFS cfg env vp sp fs).2) :
    p ∈ fs ∨ p = assInnerOf sp ∨ p = tempSubOf cfg env ∨ p = tempOutOf cfg env := by
  unfold burnSubtitleFS burnRelocate at hres h
  simp only [tempSubOf, tempOutOf]
  cases hmk : env.mkdirTempRes <;>
  cases hhw : env.hwRes <;>
  cases hsw : env.swRes <;>
  by_cases hic : env.innerConvertOk <;>
  by_cases hro : env.renameOutOk <;>
  by_cases hco : env.copyOutOk <;>
    (try simp_all [mem_fsAdd, mem_fsRemove, mem_removeUnder]) <;>
    (try split_ifs at hres h) <;>
    (try simp_all [mem_fsAdd, mem_fsRemove, mem_removeUnder]) <;>
    tauto

theorem burn_ok_val (cfg : Paths) (env : ProcEnv) (vp sp : String) (fs : FS)
    (o : String) (hres : (burnSubtitleFS cfg env vp sp fs).1 = .ok o) :
    o = goJoin (videosDirOf cfg) (goBase vp) := by
  unfold burnSubtitleFS burnRelocate at hres
  cases hmk : env.mkdirTempRes <;>
  cases hhw : env.hwRes <;>
  cases hsw : env.swRes <;>
  by_cases hic : env.innerConvertOk <;>
  by_cases hro : env.renameOutOk <;>
  by_cases hco : env.copyOutOk <;>
    (try simp_all) <;>
    (try split_ifs at hres) <;>
    (try simp_all)

theorem burn_ok_mem (cfg : Paths) (env : ProcEnv) (vp sp : String) (fs : FS)
    (o : String) (hres : (burnSubtitleFS cfg env vp sp fs).1 = .ok o)
    (h1 : goJoin (videosDirOf cfg) (goBase vp) ≠ assInnerOf sp)
    (h2 : goJoin (videosDirOf cfg) (goBase vp) ≠ sp)
    (h4 : underDirB (tempDirOf cfg env) (goJoin (videosDirOf cfg) (goBase vp)) = false) :
    goJoin (videosDirOf cfg) (goBase vp) ∈ (burnSubtitleFS cfg env vp sp fs).2 := by
  unfold burnSubtitleFS burnRelocate at hres ⊢
  cases hmk : env.mkdirTempRes <;>
  cases hhw : env.hwRes <;>
  cases hsw : env.swRes <;>
  by_cases hic : env.innerConvertOk <;>
  by_cases hro : env.renameOutOk <;>
  by_cases hco : env.copyOutOk <;>
    (try simp_all [mem_fsAdd, mem_fsRemove, mem_removeUnder]) <;>
    (try split_ifs at hres ⊢) <;>
    (try simp_all [mem_fsAdd, mem_fsRemove, mem_removeUnder])

theorem ProcessFS_elim (cfg : Paths) (env : ProcEnv) (v : String) (fs : FS)
    (motive : ProcResult → Prop)
    (c0 : v ∉ fs →
      motive ⟨.error "move to processing: move to processing: rename: no such file", fs,
        [(.moveToProcessing, false)]⟩)
    (c1 : v ∈ fs → ∀ m, env.extractRes = .error m →
      motive ⟨.error ("extract audio: ffmpeg extract audio: " ++ m), fsStep1 cfg v fs,
        [(.moveToProcessing, true), (.extractAudio, false)]⟩)
    (c2 : v ∈ fs → env.extractRes = .ok () → ∀ m, env.transcribeRes = .error m →
      motive ⟨.error ("transcribe: whisper transcribe: " ++ m),
        fsRemove (audioOf cfg v) (fsStep2 cfg v fs),
        [(.moveToProcessing, true), (.extractAudio, true), (.transcribe, false)]⟩)
    (c3 : v ∈ fs → env.extractRes = .ok () → env.transcribeRes = .ok () →
      ∀ m, env.convertRes = .error m →
      motive ⟨.error ("convert to ASS: ffmpeg convert to ASS: " ++ m),
        fsRemove (audioOf cfg v) (fsStep3 cfg v fs),
        [(.moveToProcessing, true), (.extractAudio, true), (.transcribe, true),
         (.convertToASS, false)]⟩)
    (c4 : v ∈ fs → env.extractRes = .ok () → env.transcribeRes = .ok () →
      env.convertRes = .ok () → ∀ m bfs,
      burnSubtitleFS cfg env (ppOf cfg v) (assOf cfg v) (fsStep4 cfg v fs) = (.error m, bfs) →
      motive ⟨.error ("burn subtitle: " ++ m),
        fsRemove (audioOf cfg v) (fsRemove (assOf cfg v) bfs),
        [(.moveToProcessing, true), (.extractAudio, true), (.transcribe, true),
         (.convertToASS, true), (.burnSubtitle, false)]⟩)
    (c5 : v ∈ fs → env.extractRes = .ok () → env.transcribeRes = .ok () →
      env.convertRes = .ok () → ∀ o bfs,
      burnSubtitleFS cfg env (ppOf cfg v) (assOf cfg v) (fsStep4 cfg v fs) = (.ok o, bfs) →
      motive ⟨.ok (),
        fsRemove (audioOf cfg v) (fsRemove (assOf cfg v) (step7 cfg v (step6 cfg v bfs).2).2),
        [(.moveToProcessing, true), (.extractAudio, true), (.transcribe, true),
         (.convertToASS, true), (.burnSubtitle, true),
         (.moveToOutput, (step6 cfg v bfs).1), (.cleanup, (step7 cfg v (step6 cfg v bfs).2).1)]⟩) :
    motive (ProcessFS cfg env v fs) := by
  unfold ProcessFS
  by_cases hv : v ∈ fs
  · rw [if_pos hv]
    cases her : env.extractRes with
    | error m => exact c1 hv m her
    | ok u =>
      cases u
      cases htr : env.transcribeRes with
      | error m => exact c2 hv her m htr
      | ok u =>
        cases u
        cases hcv : env.convertRes with
        | error m => exact c3 hv her htr m hcv
        | ok u =>
          cases u
          rcases hb : burnSubtitleFS cfg env (ppOf cfg v) (assOf cfg v) (fsStep4 cfg v fs)
            with ⟨br, bfs⟩
          cases br with
          | error m => exact c4 hv her htr hcv m bfs hb
          | ok o => exact c5 hv her htr hcv o bfs hb
  · rw [if_neg hv]
    exact c0 hv

theorem underDir_goJoin (d x : String) : underDirB d (goJoin d x) = true := by
  unfold underDirB goJoin
  have hd : (d ++ "/" ++ x).data = (d ++ "/").data ++ x.data := rfl
  rw [hd, List.isPrefixOf_iff_prefix]
  exact List.prefix_append _ _

theorem step6_eq_of_mem (cfg : Paths) (v : String) (fs : FS)
    (h : srtOf cfg v ∈ fs) :
    step6 cfg v fs = (true, fsAdd (outSrtOf cfg v) (fsRemove (srtOf cfg v) fs)) := by
  unfold step6 osRename
  rw [if_pos h]

theorem step7_eq_of_mem (cfg : Paths) (v : String) (fs : FS)
    (h : ppOf cfg v ∈ fs) :
    step7 cfg v fs = (true, fsRemove (ppOf cfg v) fs) := by
  unfold step7 osRemove
  rw [if_pos h]

set_option maxHeartbeats 1000000 in
theorem fsStep4_mem (cfg : Paths) (v : String) (fs : FS) (q : String)
    (h : q ∈ fsStep4 cfg v fs) :
    q = assOf cfg v ∨ q = srtOf cfg v ∨ q = audioOf cfg v ∨ q = ppOf cfg v ∨ q ∈ fs := by
  simp only [fsStep4, fsStep3, fsStep2, fsStep1, mem_fsAdd, mem_fsRemove] at h
  rcases h with h1 | h1 | h1 | h1 | ⟨h1, _⟩
  · exact Or.inl h1
  · exact Or.inr (Or.inl h1)
  · exact Or.inr (Or.inr (Or.inl h1))
  · exact Or.inr (Or.inr (Or.inr (Or.inl h1)))
  · exact Or.inr (Or.inr (Or.inr (Or.inr h1)))

/-! # Claim theorems -/

/-- Claim C10: for the counting semaphore, in every state reachable by any
interleaving of acquire and release operations the number of outstanding
slots stays at most the construction-time capacity (and is a natural
number, hence at least 0), and the only enabled transitions are an acquire
from a non-full state and a release from a state with at least one
outstanding slot — so a release with no acquire outstanding blocks rather
than completing. -/
theorem c10_semaphore_safety (cap n : Nat) (h : SemReach cap n) :
    n ≤ cap ∧ ∀ m, SemStep cap n m → (n < cap ∧ m = n + 1) ∨ (0 < n ∧ m = n - 1) := by
  refine ⟨semReach_le h, ?_⟩
  intro m hm
  cases hm with
  | acquire hlt => exact Or.inl ⟨hlt, rfl⟩
  | release hpos => exact Or.inr ⟨hpos, rfl⟩

theorem c10_semaphore_safety_witness :
    1 ≤ 2 ∧ ∀ m, SemStep 2 1 m → (1 < 2 ∧ m = 1 + 1) ∨ (0 < 1 ∧ m = 1 - 1) :=
  c10_semaphore_safety 2 1 (SemReach.step SemReach.init (SemStep.acquire (by decide)))

/-- Claim C1: in every run of the dispatcher (watch or batch target mode)
with admission gate capacity `cap`, every reachable state has at most
`cap` concurrently executing handlers: each item holds one slot from
before its handler starts until the deferred release after it returns, so
`running + acquired ≤ slots ≤ cap`. -/
theorem c1_admission_gate_bound (cap w : Nat) (s : DState)
    (h : DReach cap (DState.init w) s) : s.running ≤ cap := by
  rcases dReach_invariant h with ⟨h1, h2⟩
  omega

theorem c1_admission_gate_bound_witness :
    (⟨1, 2, 0, 1, 0⟩ : DState).running ≤ 2 :=
  c1_admission_gate_bound 2 3 _
    (DReach.step
      (DReach.step DReach.refl (DStep.acquire (DState.init 3) (by decide) (by decide)))
      (DStep.start ⟨1, 2, 1, 0, 0⟩ (by decide)))

/-- Claim C9 (failing run): with capacity 1, the watcher loop can reach a
state in which `Start` has returned while one dispatched handler is still
in flight: dispatch one item, block acquiring a slot for a second item,
cancel the context — the inner select's `ctx.Done()` branch returns
`ctx.Err()` without executing `wg.Wait()`.  This contradicts the claimed
graceful drain on every cancellation path (the drain runs only on the
top-level select's cancellation branch). -/
theorem c9_return_without_drain :
    WReach 1 ⟨WPhase.returned, 1, 1, true⟩ := by
  have s0 : WReach 1 WState.init := WReach.init
  have s1 : WReach 1 ⟨WPhase.acquiring, 0, 0, false⟩ :=
    WReach.step s0 (WStep.videoEvent WState.init rfl)
  have s2 : WReach 1 ⟨WPhase.select, 1, 1, false⟩ :=
    WReach.step s1 (WStep.dispatch ⟨WPhase.acquiring, 0, 0, false⟩ rfl (by decide))
  have s3 : WReach 1 ⟨WPhase.acquiring, 1, 1, false⟩ :=
    WReach.step s2 (WStep.videoEvent ⟨WPhase.select, 1, 1, false⟩ rfl)
  have s4 : WReach 1 ⟨WPhase.acquiring, 1, 1, true⟩ :=
    WReach.step s3 (WStep.cancel ⟨WPhase.acquiring, 1, 1, false⟩)
  exact WReach.step s4 (WStep.acquireCancelled ⟨WPhase.acquiring, 1, 1, true⟩ rfl rfl)

/-- Claim C6: the mux/burn stage always invokes the transcoding tool once
with the configured (hardware) encoder; exactly when that invocation
fails it retries exactly once with the software `libx264` profile; the
stage reports success iff either invocation succeeded. -/
theorem c6_software_fallback (ff : FFmpegCfg) (env : ProcEnv)
    (a s o : String) :
    (burnEncode ff env a s o).1 =
      (match env.hwRes with
       | .ok _ => [hwArgs ff a s o]
       | .error _ => [hwArgs ff a s o, swArgs ff a s o])
    ∧ "libx264" ∈ swArgs ff a s o
    ∧ ((burnEncode ff env a s o).2.isOk = true ↔
        env.hwRes.isOk = true ∨ env.swRes.isOk = true) := by
  rcases env with ⟨e1, e2, e3, e4, e5, e6, hw, sw, e9, e10⟩
  cases hw <;> cases sw <;>
    simp [burnEncode, swArgs, Except.isOk, Except.toBool]

/-- Claim C8 (counterexample): a CREATE event for the dotfile
`/input/.clip.mp4` is dispatched by the watcher — `isVideoFile` looks
only at the extension and the watch loop has no dotfile check — refuting
the claim that hidden/dotfile entries are never dispatched. -/
theorem c8_dotfile_dispatched :
    watcherDispatches true "/input/.clip.mp4" = true ∧
    (goBase "/input/.clip.mp4").data.head? = some '.' := by decide

/-- Claim C8 (amended): a CREATE event is dispatched if and only if the
lowercased extension of its path is one of the recognized media
extensions; there is no hidden/dotfile filtering in the watcher. -/
theorem c8_dispatch_iff_extension (isCreate : Bool) (name : String) :
    watcherDispatches isCreate name = true ↔
      isCreate = true ∧ goToLower (goExt name) ∈ supportedFormats := by
  unfold watcherDispatches isVideoFile
  rw [Bool.and_eq_true]
  exact and_congr_right fun _ => List.elem_iff

/-- Claim C7 (counterexample): a batch run over `"missing.mp4,good.mp4"`
where only `good.mp4` exists and processing succeeds yields aggregate
counts `(1, 0)`: the missing file is skipped during validation and is not
counted, while the claim demands one recorded failure for it. -/
theorem c7_missing_not_counted :
    runTargetModeCounts "in" (fun p => p = "in/good.mp4") (fun _ => true)
        "missing.mp4,good.mp4" = (1, 0)
    ∧ (parseTargets "missing.mp4,good.mp4").countP
        (fun t => !((fun p => p = "in/good.mp4") (goJoin "in" t))) = 1 := by
  decide

/-- Claim C7 (amended): in batch mode the existing files are processed and
the missing ones are logged and skipped; the final counts are: successes
= the number of existing target files whose processing succeeded, and
failures = the number of existing target files whose processing failed —
missing files are excluded from both counts. -/
theorem c7_aggregate_counts (inputDir : String) (fsExists procOk : String → Bool)
    (target : String) :
    runTargetModeCounts inputDir fsExists procOk target =
      (((parseTargets target).filter (fun t => fsExists (goJoin inputDir t))).countP
          (fun t => procOk (goJoin inputDir t)),
       ((parseTargets target).filter (fun t => fsExists (goJoin inputDir t))).countP
          (fun t => !(procOk (goJoin inputDir t)))) := by
  unfold runTargetModeCounts validPathsOf
  have hmap :
      (parseTargets target).filterMap (fun t =>
          let videoPath := goJoin inputDir t
          if fsExists videoPath then some videoPath else none) =
        ((parseTargets target).filter (fun t => fsExists (goJoin inputDir t))).map
          (goJoin inputDir) := by
    induction parseTargets target with
    | nil => rfl
    | cons hd tl ih =>
      by_cases h : fsExists (goJoin inputDir hd) <;>
        simp [List.filterMap_cons, List.filter_cons, h, ih]
  rw [hmap]
  by_cases hnil :
      (parseTargets target).filter (fun t => fsExists (goJoin inputDir t)) = []
  · rw [hnil]
    simp
  · have hne :
        ((parseTargets target).filter (fun t => fsExists (goJoin inputDir t))).map
          (goJoin inputDir) ≠ [] := by
      simpa using hnil
    rw [if_neg hne, List.countP_map, List.countP_map]
    rfl

theorem c2_stage_order_and_wrapping (cfg : Paths) (env : ProcEnv) (v : String) (fs : FS) :
    (((ProcessFS cfg env v fs).trace.map Prod.fst) =
        stageOrder.take (ProcessFS cfg env v fs).trace.length)
    ∧ (∀ pr ∈ consecFatal, pr.2 ∈ (ProcessFS cfg env v fs).trace.map Prod.fst →
        (pr.1, true) ∈ (ProcessFS cfg env v fs).trace)
    ∧ (∀ s b, (s, b) ∈ (ProcessFS cfg env v fs).trace → b = false → s ∈ fatalStages →
        (ProcessFS cfg env v fs).trace.getLast? = some (s, false))
    ∧ (∀ e, (ProcessFS cfg env v fs).res = Except.error e →
        ∃ s m, (ProcessFS cfg env v fs).trace.getLast? = some (s, false) ∧
          s ∈ fatalStages ∧ e = stageLabel s ++ ": " ++ m) := by
  refine ProcessFS_elim cfg env v fs
    (fun r =>
      ((r.trace.map Prod.fst) = stageOrder.take r.trace.length)
      ∧ (∀ pr ∈ consecFatal, pr.2 ∈ r.trace.map Prod.fst → (pr.1, true) ∈ r.trace)
      ∧ (∀ s b, (s, b) ∈ r.trace → b = false → s ∈ fatalStages →
          r.trace.getLast? = some (s, false))
      ∧ (∀ e, r.res = Except.error e →
          ∃ s m, r.trace.getLast? = some (s, false) ∧ s ∈ fatalStages ∧
            e = stageLabel s ++ ": " ++ m))
    ?_ ?_ ?_ ?_ ?_ ?_
  · intro hv
    dsimp only
    refine ⟨rfl, by decide, by decide, ?_⟩
    intro e he
    injection he with h
    exact ⟨.moveToProcessing, "move to processing: rename: no such file", rfl, by decide,
      by rw [← h]; rfl⟩
  · intro hv m hm
    dsimp only
    refine ⟨rfl, by decide, by decide, ?_⟩
    intro e he
    injection he with h
    exact ⟨.extractAudio, "ffmpeg extract audio: " ++ m, rfl, by decide,
      by rw [← h]; simp [stageLabel, ← String.append_assoc]⟩
  · intro hv h2 m hm
    dsimp only
    refine ⟨rfl, by decide, by decide, ?_⟩
    intro e he
    injection he with h
    exact ⟨.transcribe, "whisper transcribe: " ++ m, rfl, by decide,
      by rw [← h]; simp [stageLabel, ← String.append_assoc]⟩
  · intro hv h2 h3 m hm
    dsimp only
    refine ⟨rfl, by decide, by decide, ?_⟩
    intro e he
    injection he with h
    exact ⟨.convertToASS, "ffmpeg convert to ASS: " ++ m, rfl, by decide,
      by rw [← h]; simp [stageLabel, ← String.append_assoc]⟩
  · intro hv h2 h3 h4 m bfs hb
    dsimp only
    refine ⟨rfl, by decide, by decide, ?_⟩
    intro e he
    injection he with h
    exact ⟨.burnSubtitle, m, rfl, by decide,
      by rw [← h]; simp [stageLabel, ← String.append_assoc]⟩
  · intro hv h2 h3 h4 o bfs hb
    dsimp only
    refine ⟨rfl, ?_, ?_, ?_⟩
    · simp [consecFatal]
    · intro s b hmem hb2 hs
      subst hb2
      simp only [List.mem_cons, List.not_mem_nil, or_false] at hmem
      rcases hmem with h | h | h | h | h | h | h <;>
        simp_all [fatalStages, Prod.ext_iff]
    · intro e he
      exact absurd he (by simp)

theorem c3_cleanup_on_failure (cfg : Paths) (env : ProcEnv) (v : String) (fs : FS)
    (hv : v ∈ fs) (hsep : SepHyps cfg env v) (e : String)
    (hfail : (ProcessFS cfg env v fs).res = Except.error e) :
    (((Stage.extractAudio, true) ∈ (ProcessFS cfg env v fs).trace →
        audioOf cfg v ∉ (ProcessFS cfg env v fs).fs)
     ∧ ((Stage.convertToASS, true) ∈ (ProcessFS cfg env v fs).trace →
        assOf cfg v ∉ (ProcessFS cfg env v fs).fs)
     ∧ ppOf cfg v ∈ (ProcessFS cfg env v fs).fs) := by
  refine (ProcessFS_elim cfg env v fs
    (fun r => r.res = Except.error e →
      (((Stage.extractAudio, true) ∈ r.trace → audioOf cfg v ∉ r.fs)
       ∧ ((Stage.convertToASS, true) ∈ r.trace → assOf cfg v ∉ r.fs)
       ∧ ppOf cfg v ∈ r.fs))
    ?_ ?_ ?_ ?_ ?_ ?_) hfail
  · intro h0
    exact absurd hv h0
  · intro _ _ _ _
    dsimp only
    exact ⟨fun hmem => absurd hmem (by decide),
           fun hmem => absurd hmem (by decide),
           by simp [fsStep1, mem_fsAdd]⟩
  · intro _ _ _ _ _
    dsimp only
    refine ⟨fun _ => ?_, fun hmem => absurd hmem (by decide), ?_⟩
    · simp [mem_fsRemove]
    · simp [fsStep2, fsStep1, mem_fsRemove, mem_fsAdd, hsep.pp_ne_audio]
  · intro _ _ _ _ _ _
    dsimp only
    refine ⟨fun _ => ?_, fun hmem => absurd hmem (by decide), ?_⟩
    · simp [mem_fsRemove]
    · simp [fsStep3, fsStep2, fsStep1, mem_fsRemove, mem_fsAdd, hsep.pp_ne_audio]
  · intro _ _ _ _ m bfs hb _
    dsimp only
    refine ⟨fun _ => ?_, fun _ => ?_, ?_⟩
    · simp [mem_fsRemove]
    · simp [mem_fsRemove]
    · have hin : ppOf cfg v ∈ fsStep4 cfg v fs := by
        simp [fsStep4, fsStep3, fsStep2, fsStep1, mem_fsAdd]
      have h1 : ppOf cfg v ≠ assInnerOf (assOf cfg v) := by
        rw [assInnerOf_assOf]
        exact hsep.pp_ne_ass
      have hpp := mem_burn_preserve cfg env (ppOf cfg v) (assOf cfg v) (ppOf cfg v)
        (fsStep4 cfg v fs) hin h1 hsep.pp_ne_ass hsep.pp_ne_tempOut hsep.pp_not_temp
      rw [hb] at hpp
      simp only at hpp
      simp [mem_fsRemove, hpp, hsep.pp_ne_ass, hsep.pp_ne_audio]
  · intro _ _ _ _ _ _ _ h
    exact absurd h (by simp)

set_option maxHeartbeats 1000000 in
theorem c5_no_output_on_failure (cfg : Paths) (env : ProcEnv) (v : String) (fs : FS)
    (hsep : SepHyps cfg env v) (e : String)
    (hfail : (ProcessFS cfg env v fs).res = Except.error e) (p : String)
    (hp : underDirB cfg.output p = true) (hnot : p ∉ fs) :
    p ∉ (ProcessFS cfg env v fs).fs := by
  refine (ProcessFS_elim cfg env v fs
    (fun r => r.res = Except.error e → p ∉ r.fs) ?_ ?_ ?_ ?_ ?_ ?_) hfail
  · intro _ _
    exact hnot
  · intro _ _ _ _ hmem
    dsimp only at hmem
    simp only [fsStep1, mem_fsAdd, mem_fsRemove] at hmem
    rcases hmem with rfl | ⟨h, _⟩
    · exact absurd hp (by simp [hsep.out_pp])
    · exact absurd h hnot
  · intro _ _ _ _ _ hmem
    dsimp only at hmem
    simp only [fsStep2, fsStep1, mem_fsAdd, mem_fsRemove] at hmem
    rcases hmem with ⟨rfl | rfl | ⟨h, _⟩, _⟩
    · exact absurd hp (by simp [hsep.out_audio])
    · exact absurd hp (by simp [hsep.out_pp])
    · exact absurd h hnot
  · intro _ _ _ _ _ _ hmem
    dsimp only at hmem
    simp only [fsStep3, fsStep2, fsStep1, mem_fsAdd, mem_fsRemove] at hmem
    rcases hmem with ⟨rfl | rfl | rfl | ⟨h, _⟩, _⟩
    · exact absurd hp (by simp [hsep.out_srt])
    · exact absurd hp (by simp [hsep.out_audio])
    · exact absurd hp (by simp [hsep.out_pp])
    · exact absurd h hnot
  · intro hv h2 h3 h4 m bfs hb hf hmem
    dsimp only at hmem
    rw [mem_fsRemove, mem_fsRemove] at hmem
    have hbm : p ∈ (burnSubtitleFS cfg env (ppOf cfg v) (assOf cfg v) (fsStep4 cfg v fs)).2 := by
      rw [hb]
      exact hmem.1.1
    have hcases := mem_burn_error cfg env (ppOf cfg v) (assOf cfg v) p (fsStep4 cfg v fs) m
      (by rw [hb]) hbm
    rw [assInnerOf_assOf] at hcases
    simp only [fsStep4, fsStep3, fsStep2, fsStep1, mem_fsAdd, mem_fsRemove] at hcases
    clear hbm hmem hb hf
    rcases hcases with (h1 | h1 | h1 | h1 | ⟨h, _⟩) | h1 | h1 | h1
    · rw [h1] at hp
      exact absurd hp (by simp [hsep.out_ass])
    · rw [h1] at hp
      exact absurd hp (by simp [hsep.out_srt])
    · rw [h1] at hp
      exact absurd hp (by simp [hsep.out_audio])
    · rw [h1] at hp
      exact absurd hp (by simp [hsep.out_pp])
    · exact absurd h hnot
    · rw [h1] at hp
      exact absurd hp (by simp [hsep.out_ass])
    · rw [h1] at hp
      exact absurd hp (by simp [hsep.out_tempSub])
    · rw [h1] at hp
      exact absurd hp (by simp [hsep.out_tempOut])
  · intro _ _ _ _ _ _ _ h
    exact absurd h (by simp)

set_option maxHeartbeats 1000000 in
theorem c4_success_layout (cfg : Paths) (env : ProcEnv) (v : String) (fs : FS)
    (hsep : SepHyps cfg env v)
    (hclean : ∀ q ∈ fs, underDirB (videosDirOf cfg) q = false)
    (hok : (ProcessFS cfg env v fs).res = Except.ok ()) :
    outVideoOf cfg v ∈ (ProcessFS cfg env v fs).fs
    ∧ underDirB (videosDirOf cfg) (outVideoOf cfg v) = true
    ∧ (∀ q, underDirB (videosDirOf cfg) q = true → q ∈ (ProcessFS cfg env v fs).fs →
        q = outVideoOf cfg v)
    ∧ outSrtOf cfg v ∈ (ProcessFS cfg env v fs).fs
    ∧ v ∉ (ProcessFS cfg env v fs).fs
    ∧ ppOf cfg v ∉ (ProcessFS cfg env v fs).fs
    ∧ (∀ q, underDirB cfg.archived q = true → q ∈ (ProcessFS cfg env v fs).fs → q ∈ fs) := by
  refine (ProcessFS_elim cfg env v fs
    (fun r => r.res = Except.ok () →
      (outVideoOf cfg v ∈ r.fs
       ∧ underDirB (videosDirOf cfg) (outVideoOf cfg v) = true
       ∧ (∀ q, underDirB (videosDirOf cfg) q = true → q ∈ r.fs → q = outVideoOf cfg v)
       ∧ outSrtOf cfg v ∈ r.fs
       ∧ v ∉ r.fs
       ∧ ppOf cfg v ∉ r.fs
       ∧ (∀ q, underDirB cfg.archived q = true → q ∈ r.fs → q ∈ fs))) ?_ ?_ ?_ ?_ ?_ ?_) hok
  · intro _ h
    exact absurd h (by simp)
  · intro _ _ _ h
    exact absurd h (by simp)
  · intro _ _ _ _ h
    exact absurd h (by simp)
  · intro _ _ _ _ _ h
    exact absurd h (by simp)
  · intro _ _ _ _ _ _ _ h
    exact absurd h (by simp)
  · intro hv h2 h3 h4 o bfs hb hres
    dsimp only
    have hass1 : srtOf cfg v ≠ assInnerOf (assOf cfg v) := by
      rw [assInnerOf_assOf]
      exact hsep.srt_ne_ass
    have hsrt_bfs : srtOf cfg v ∈ bfs := by
      have hin : srtOf cfg v ∈ fsStep4 cfg v fs := by
        simp [fsStep4, fsStep3, fsStep2, fsStep1, mem_fsAdd]
      have hm := mem_burn_preserve cfg env (ppOf cfg v) (assOf cfg v) (srtOf cfg v)
        (fsStep4 cfg v fs) hin hass1 hsep.srt_ne_ass hsep.srt_ne_tempOut hsep.srt_not_temp
      rw [hb] at hm
      exact hm
    have hass2 : ppOf cfg v ≠ assInnerOf (assOf cfg v) := by
      rw [assInnerOf_assOf]
      exact hsep.pp_ne_ass
    have hpp_bfs : ppOf cfg v ∈ bfs := by
      have hin : ppOf cfg v ∈ fsStep4 cfg v fs := by
        simp [fsStep4, fsStep3, fsStep2, fsStep1, mem_fsAdd]
      have hm := mem_burn_preserve cfg env (ppOf cfg v) (assOf cfg v) (ppOf cfg v)
        (fsStep4 cfg v fs) hin hass2 hsep.pp_ne_ass hsep.pp_ne_tempOut hsep.pp_not_temp
      rw [hb] at hm
      exact hm
    have hass3 : outVideoOf cfg v ≠ assInnerOf (assOf cfg v) := by
      rw [assInnerOf_assOf]
      exact hsep.outV_ne_ass
    have hout_bfs : outVideoOf cfg v ∈ bfs := by
      have hm := burn_ok_mem cfg env (ppOf cfg v) (assOf cfg v) (fsStep4 cfg v fs) o
        (by rw [hb]) hass3 hsep.outV_ne_ass hsep.outV_not_temp
      rw [hb] at hm
      exact hm
    have hpp6 : ppOf cfg v ∈ fsAdd (outSrtOf cfg v) (fsRemove (srtOf cfg v) bfs) :=
      mem_fsAdd.mpr (Or.inr (mem_fsRemove.mpr ⟨hpp_bfs, hsep.pp_ne_srt⟩))
    have hfs : (step7 cfg v (step6 cfg v bfs).2).2 =
        fsRemove (ppOf cfg v) (fsAdd (outSrtOf cfg v) (fsRemove (srtOf cfg v) bfs)) := by
      rw [step6_eq_of_mem cfg v bfs hsrt_bfs]
      dsimp only
      rw [step7_eq_of_mem cfg v _ hpp6]
    rw [hfs]
    have hdec : ∀ q, q ∈ fsRemove (audioOf cfg v) (fsRemove (assOf cfg v)
        (fsRemove (ppOf cfg v) (fsAdd (outSrtOf cfg v) (fsRemove (srtOf cfg v) bfs)))) →
        q = outSrtOf cfg v ∨ q = assOf cfg v ∨ q = srtOf cfg v ∨ q = audioOf cfg v ∨
        q = ppOf cfg v ∨ q = tempSubOf cfg env ∨ q = tempOutOf cfg env ∨
        q = outVideoOf cfg v ∨ q ∈ fs := by
      intro q hq
      simp only [mem_fsRemove, mem_fsAdd] at hq
      rcases hq with ⟨⟨⟨hq1 | hq1, _⟩, _⟩, _⟩
      · exact Or.inl hq1
      · have hq2 : q ∈ bfs := hq1.1
        have hq3 := mem_burn_cases cfg env (ppOf cfg v) (assOf cfg v) q (fsStep4 cfg v fs)
          (by rw [hb]; exact hq2)
        rw [assInnerOf_assOf] at hq3
        rcases hq3 with hq4 | hq4 | hq4 | hq4 | hq4
        · rcases fsStep4_mem cfg v fs q hq4 with h5 | h5 | h5 | h5 | h5
          · exact Or.inr (Or.inl h5)
          · exact Or.inr (Or.inr (Or.inl h5))
          · exact Or.inr (Or.inr (Or.inr (Or.inl h5)))
          · exact Or.inr (Or.inr (Or.inr (Or.inr (Or.inl h5))))
          · exact Or.inr (Or.inr (Or.inr (Or.inr (Or.inr (Or.inr (Or.inr (Or.inr h5)))))))
        · exact Or.inr (Or.inl hq4)
        · exact Or.inr (Or.inr (Or.inr (Or.inr (Or.inr (Or.inl hq4)))))
        · exact Or.inr (Or.inr (Or.inr (Or.inr (Or.inr (Or.inr (Or.inl hq4))))))
        · exact Or.inr (Or.inr (Or.inr (Or.inr (Or.inr (Or.inr (Or.inr (Or.inl hq4)))))))
    refine ⟨?_, ?_, ?_, ?_, ?_, ?_, ?_⟩
    · exact mem_fsRemove.mpr ⟨mem_fsRemove.mpr ⟨mem_fsRemove.mpr
        ⟨mem_fsAdd.mpr (Or.inr (mem_fsRemove.mpr ⟨hout_bfs, hsep.outV_ne_srt⟩)),
         hsep.outV_ne_pp⟩, hsep.outV_ne_ass⟩, hsep.outV_ne_audio⟩
    · exact underDir_goJoin _ _
    · intro q hq hmem
      rcases hdec q hmem with h5 | h5 | h5 | h5 | h5 | h5 | h5 | h5 | h5
      · rw [h5] at hq
        exact absurd hq (by simp [hsep.vid_outS])
      · rw [h5] at hq
        exact absurd hq (by simp [hsep.vid_ass])
      · rw [h5] at hq
        exact absurd hq (by simp [hsep.vid_srt])
      · rw [h5] at hq
        exact absurd hq (by simp [hsep.vid_audio])
      · rw [h5] at hq
        exact absurd hq (by simp [hsep.vid_pp])
      · rw [h5] at hq
        exact absurd hq (by simp [hsep.vid_tempSub])
      · rw [h5] at hq
        exact absurd hq (by simp [hsep.vid_tempOut])
      · exact h5
      · exact absurd hq (by simp [hclean q h5])
    · exact mem_fsRemove.mpr ⟨mem_fsRemove.mpr ⟨mem_fsRemove.mpr
        ⟨mem_fsAdd.mpr (Or.inl rfl), hsep.outS_ne_pp⟩, hsep.outS_ne_ass⟩, hsep.outS_ne_audio⟩
    · intro hvmem
      rcases hdec v hvmem with h5 | h5 | h5 | h5 | h5 | h5 | h5 | h5 | h5
      · exact hsep.v_ne_outS h5
      · exact hsep.v_ne_ass h5
      · exact hsep.v_ne_srt h5
      · exact hsep.v_ne_audio h5
      · exact hsep.v_ne_pp h5
      · exact hsep.v_ne_tempSub h5
      · exact hsep.v_ne_tempOut h5
      · exact hsep.v_ne_outV h5
      · -- v was renamed away at step 1 and never re-added
        have : v ∈ fsRemove (srtOf cfg v) bfs → v ∈ bfs := fun h => (mem_fsRemove.mp h).1
        -- decompose again to find v ∈ fsRemove v fs, a contradiction
        simp only [mem_fsRemove, mem_fsAdd] at hvmem
        rcases hvmem with ⟨⟨⟨hq1 | hq1, _⟩, _⟩, _⟩
        · exact hsep.v_ne_outS hq1
        · have hq2 : v ∈ bfs := hq1.1
          have hq3 := mem_burn_cases cfg env (ppOf cfg v) (assOf cfg v) v (fsStep4 cfg v fs)
            (by rw [hb]; exact hq2)
          rw [assInnerOf_assOf] at hq3
          rcases hq3 with hq4 | hq4 | hq4 | hq4 | hq4
          · simp only [fsStep4, fsStep3, fsStep2, fsStep1, mem_fsAdd, mem_fsRemove] at hq4
            rcases hq4 with hq5 | hq5 | hq5 | hq5 | ⟨_, hq5⟩
            · exact hsep.v_ne_ass hq5
            · exact hsep.v_ne_srt hq5
            · exact hsep.v_ne_audio hq5
            · exact hsep.v_ne_pp hq5
            · exact hq5 rfl
          · exact hsep.v_ne_ass hq4
          · exact hsep.v_ne_tempSub hq4
          · exact hsep.v_ne_tempOut hq4
          · exact hsep.v_ne_outV hq4
    · intro hppmem
      simp only [mem_fsRemove] at hppmem
      exact hppmem.1.1.2 rfl
    · intro q hq hmem
      rcases hdec q hmem with h5 | h5 | h5 | h5 | h5 | h5 | h5 | h5 | h5
      · rw [h5] at hq
        exact absurd hq (by simp [hsep.arch_outS])
      · rw [h5] at hq
        exact absurd hq (by simp [hsep.arch_ass])
      · rw [h5] at hq
        exact absurd hq (by simp [hsep.arch_srt])
      · rw [h5] at hq
        exact absurd hq (by simp [hsep.arch_audio])
      · rw [h5] at hq
        exact absurd hq (by simp [hsep.arch_pp])
      · rw [h5] at hq
        exact absurd hq (by simp [hsep.arch_tempSub])
      · rw [h5] at hq
        exact absurd hq (by simp [hsep.arch_tempOut])
      · rw [h5] at hq
        exact absurd hq (by simp [hsep.arch_outV])
      · exact h5

theorem c4_subtitle_and_archive_counterexample :
    (ProcessFS cfgW envAllOk "in/video.mp4" ["in/video.mp4"]).res = Except.ok ()
    ∧ "out/videos/video.mp4" ∈ (ProcessFS cfgW envAllOk "in/video.mp4" ["in/video.mp4"]).fs
    ∧ "out/video.srt" ∉ (ProcessFS cfgW envAllOk "in/video.mp4" ["in/video.mp4"]).fs
    ∧ "out/video_temp.srt" ∈ (ProcessFS cfgW envAllOk "in/video.mp4" ["in/video.mp4"]).fs
    ∧ (∀ p ∈ (ProcessFS cfgW envAllOk "in/video.mp4" ["in/video.mp4"]).fs,
        underDirB "arch" p = false)
    ∧ "in/video.mp4" ∉ (ProcessFS cfgW envAllOk "in/video.mp4" ["in/video.mp4"]).fs
    ∧ "proc/video.mp4" ∉ (ProcessFS cfgW envAllOk "in/video.mp4" ["in/video.mp4"]).fs :=
  ⟨rfl, by decide, by decide, by decide, by decide, by decide, by decide⟩

theorem c4_success_layout_witness :
    outVideoOf cfgW "in/video.mp4" ∈ (ProcessFS cfgW envAllOk "in/video.mp4" ["in/video.mp4"]).fs
    ∧ underDirB (videosDirOf cfgW) (outVideoOf cfgW "in/video.mp4") = true
    ∧ (∀ q, underDirB (videosDirOf cfgW) q = true →
        q ∈ (ProcessFS cfgW envAllOk "in/video.mp4" ["in/video.mp4"]).fs →
        q = outVideoOf cfgW "in/video.mp4")
    ∧ outSrtOf cfgW "in/video.mp4" ∈ (ProcessFS cfgW envAllOk "in/video.mp4" ["in/video.mp4"]).fs
    ∧ "in/video.mp4" ∉ (ProcessFS cfgW envAllOk "in/video.mp4" ["in/video.mp4"]).fs
    ∧ ppOf cfgW "in/video.mp4" ∉ (ProcessFS cfgW envAllOk "in/video.mp4" ["in/video.mp4"]).fs
    ∧ (∀ q, underDirB cfgW.archived q = true →
        q ∈ (ProcessFS cfgW envAllOk "in/video.mp4" ["in/video.mp4"]).fs →
        q ∈ ["in/video.mp4"]) :=
  c4_success_layout cfgW envAllOk "in/video.mp4" ["in/video.mp4"]
    (by constructor <;> decide) (by decide) rfl

theorem c2_stage_order_and_wrapping_witness :
    ∃ s m,
      (ProcessFS cfgW envBurnFail "in/video.mp4" ["in/video.mp4"]).trace.getLast? =
          some (s, false)
      ∧ s ∈ fatalStages
      ∧ "burn subtitle: both hardware and software encoders failed: software encoder failed: sw" =
          stageLabel s ++ ": " ++ m :=
  (c2_stage_order_and_wrapping cfgW envBurnFail "in/video.mp4" ["in/video.mp4"]).2.2.2
    "burn subtitle: both hardware and software encoders failed: software encoder failed: sw" rfl

theorem c3_cleanup_on_failure_witness :
    (((Stage.extractAudio, true) ∈
        (ProcessFS cfgW envBurnFail "in/video.mp4" ["in/video.mp4"]).trace →
        audioOf cfgW "in/video.mp4" ∉
          (ProcessFS cfgW envBurnFail "in/video.mp4" ["in/video.mp4"]).fs)
     ∧ ((Stage.convertToASS, true) ∈
        (ProcessFS cfgW envBurnFail "in/video.mp4" ["in/video.mp4"]).trace →
        assOf cfgW "in/video.mp4" ∉
          (ProcessFS cfgW envBurnFail "in/video.mp4" ["in/video.mp4"]).fs)
     ∧ ppOf cfgW "in/video.mp4" ∈
        (ProcessFS cfgW envBurnFail "in/video.mp4" ["in/video.mp4"]).fs) :=
  c3_cleanup_on_failure cfgW envBurnFail "in/video.mp4" ["in/video.mp4"] (by decide)
    (by constructor <;> decide)
    "burn subtitle: both hardware and software encoders failed: software encoder failed: sw" rfl

theorem c5_no_output_on_failure_witness :
    "out/videos/video.mp4" ∉ (ProcessFS cfgW envBurnFail "in/video.mp4" ["in/video.mp4"]).fs :=
  c5_no_output_on_failure cfgW envBurnFail "in/video.mp4" ["in/video.mp4"]
    (by constructor <;> decide)
    "burn subtitle: both hardware and software encoders failed: software encoder failed: sw" rfl
    "out/videos/video.mp4" (by decide) (by decide)
